import Mathlib

/-!
Verification of `scripts/build_catalog.mjs`: a shallow embedding of the
catalog-building pipeline (repository listing with pagination, allow/block
filtering, per-repository metadata probing, item normalization, sorting, and
the main run) together with theorems about the behaviour of each stage.

JavaScript values that flow through the pipeline are modelled by the `JSVal`
inductive; JS numbers are modelled as integers (no floating point reaches any
code path the theorems are about).  Network effects are modelled by passing
explicit oracles (page number to listing response, URL to fetch outcome), and
exceptions by `Except String`.  A fuel parameter models the unbounded
`while (true)` pagination loop: `none` means the loop has not terminated
within the given number of iterations.
-/

namespace BuildCatalog

/-- A JSON-like JavaScript value.  `undefined` is `undefined` (also used for a
missing object property), `jsnull` is `null`.  Numbers are modelled as
integers. -/
inductive JSVal where
  | undefined
  | jsnull
  | bool (b : Bool)
  | num (n : Int)
  | str (s : String)
  | arr (xs : List JSVal)
  | obj (fields : List (String × JSVal))

/-- JavaScript truthiness: `undefined`, `null`, `false`, `0` and `""` are
falsy; every array and object is truthy. -/
def jsTruthy : JSVal → Bool
  | .undefined => false
  | .jsnull => false
  | .bool b => b
  | .num n => n != 0
  | .str s => s != ""
  | .arr _ => true
  | .obj _ => true

/-- JavaScript nullish test: `undefined` and `null` only. -/
def jsNullish : JSVal → Bool
  | .undefined => true
  | .jsnull => true
  | _ => false

/-- JS `a || b`: `a` if truthy, else `b`. -/
def jsOr (a b : JSVal) : JSVal := if jsTruthy a then a else b

/-- JS `a ?? b`: `b` if `a` is nullish, else `a`. -/
def jsCoalesce (a b : JSVal) : JSVal := if jsNullish a then b else a

/-- Property access `v.k` (or the guarded `v?.k` when the receiver may be
nullish — both return `undefined` here; the script only dereferences
possibly-nullish values through `?.`).  Arrays and strings expose `length`;
other primitives have no own properties. -/
def getProp : JSVal → String → JSVal
  | .obj fields, k => ((fields.find? (fun p => p.1 == k)).map (fun p => p.2)).getD .undefined
  | .arr xs, k => if k == "length" then .num xs.length else .undefined
  | .str s, k => if k == "length" then .num s.data.length else .undefined
  | _, _ => .undefined

/-- `Array.isArray(v) ? v : []` — the guard used for every array field. -/
def arrayOrEmpty (v : JSVal) : List JSVal :=
  match v with
  | .arr xs => xs
  | _ => []

/-- ASCII lower-casing, modelling `String.prototype.toLowerCase` on the
ASCII inputs the pipeline deals with. -/
def toLowerJS (s : String) : String := String.mk (s.data.map Char.toLower)

/-- The JS method call `v.toLowerCase()`: a `TypeError` unless the receiver
is a string. -/
def jsToLowerCase : JSVal → Except String String
  | .str s => .ok (toLowerJS s)
  | _ => .error "TypeError: toLowerCase is not a function"

/-- Characters matched by the regex class `\s` (ASCII part). -/
def isSpaceJS (c : Char) : Bool :=
  c = ' ' || c = '\t' || c = '\n' || c = '\r' || c = '\x0b' || c = '\x0c'

/-- One pass of `.replace(/\s+/g, "-")`: each maximal run of whitespace
becomes a single hyphen.  The flag records whether the previous character was
part of a whitespace run. -/
def collapseWsAux : Bool → List Char → List Char
  | _, [] => []
  | prevSpace, c :: rest =>
    if isSpaceJS c then
      (if prevSpace then [] else ['-']) ++ collapseWsAux true rest
    else c :: collapseWsAux false rest

/-- `s.replace(/\s+/g, "-")`. -/
def collapseWs (s : String) : String := String.mk (collapseWsAux false s.data)

/-- A repository descriptor as consumed from the listing API. -/
structure Repo where
  name : String
  html_url : String
deriving Repr, DecidableEq

/-- The normalized output record produced by `normalizeItem`.  Scalar fields
keep their `JSVal` type: the script copies truthy raw values through
unchanged, whatever their runtime type. -/
structure CatalogItem where
  id : JSVal
  title : JSVal
  course_code : JSVal
  page_url : JSVal
  summary : JSVal
  topics : List JSVal
  software : List JSVal
  keywords : List JSVal
  license : JSVal
  learning_outcomes : List JSVal
  blooms_verbs : List JSVal
  blooms_levels : List JSVal
  repo_name : String
  repo_url : String

/-- The constructed default site URL for a repository page. -/
def defaultPageUrl (org repoName : String) : String :=
  "https://" ++ org ++ ".github.io/" ++ repoName ++ "/"

/-- `normalizeItem(it, repo)` from the script, with the module-level `org`
passed explicitly.  The only expression in the body that can throw is the
`id` fallback `(it.title || "item").toLowerCase()` (evaluated only when
`it.id` is falsy): `toLowerCase` is a `TypeError` on a truthy non-string
title.  Every other field is a pure defaulting expression. -/
def normalizeItem (org : String) (it : JSVal) (repo : Repo) :
    Except String CatalogItem := do
  let idv ←
    if jsTruthy (getProp it "id") then
      Except.ok (getProp it "id")
    else do
      let slug ← jsToLowerCase (jsOr (getProp it "title") (.str "item"))
      Except.ok (JSVal.str (repo.name ++ "-" ++ collapseWs slug))
  Except.ok
    { id := idv
      title := jsOr (getProp it "title") (.str repo.name)
      course_code := jsCoalesce (getProp it "course_code") .jsnull
      page_url := jsOr (getProp it "page_url")
        (jsOr (getProp it "site_url") (.str (defaultPageUrl org repo.name)))
      summary := jsCoalesce (getProp it "summary") .jsnull
      topics := arrayOrEmpty (getProp it "topics")
      software := arrayOrEmpty (getProp it "software")
      keywords := arrayOrEmpty (getProp it "keywords")
      license := jsOr (getProp it "license") (.str "CC-BY-4.0")
      learning_outcomes := arrayOrEmpty (getProp it "learning_outcomes")
      blooms_verbs := arrayOrEmpty (getProp it "blooms_verbs")
      blooms_levels := arrayOrEmpty (getProp it "blooms_levels")
      repo_name := repo.name
      repo_url := repo.html_url }

/-- The `allowed(name)` predicate, with the module-level allow/block lists
passed explicitly (they are parsed from comma-separated environment
variables; empty entries are dropped before this point). -/
def allowed (allowlist blocklist : List String) (name : String) : Bool :=
  if allowlist.length != 0 && !(allowlist.contains name) then false
  else if blocklist.contains name then false
  else true

/-- Outcome of a raw `fetch` of a candidate URL: the promise rejects
(network error), or a response arrives with a success flag and a JSON body
parse result (`.error` when `r.json()` rejects). -/
inductive FetchOutcome where
  | netError
  | resp (ok : Bool) (body : Except String JSVal)

/-- `fetchIfExists(url)`: the whole attempt is wrapped in `try/catch`, so a
rejection anywhere (network or JSON parse) and a non-success status all
yield `null` (modelled as `none`). -/
def fetchIfExists : FetchOutcome → Option JSVal
  | .netError => none
  | .resp ok body =>
    if ok then
      match body with
      | .ok v => some v
      | .error _ => none
    else none

/-- The guard `data?.items?.length` applied to the value held by `data`
(`none` models `null`). -/
def hasItems (data : Option JSVal) : Bool :=
  match data with
  | none => false
  | some v => jsTruthy (getProp (getProp v "items") "length")

/-- The candidate loop of the script: fetch candidates in order, stop at the
first one whose document passes the `data?.items?.length` check.  Returns the
winning document (if any) and the number of candidates actually fetched.
(In the script the loop variable `data` retains the last fetched value when
no candidate qualifies, but it is only consumed under the same
`items`-length check, so an unsuccessful probe contributes nothing.) -/
def probe (fetch : String → FetchOutcome) : List String → Option JSVal × Nat
  | [] => (none, 0)
  | u :: rest =>
    let data := fetchIfExists (fetch u)
    if hasItems data then (data, 1)
    else
      let r := probe fetch rest
      (r.1, r.2 + 1)

/-- The two candidate URLs probed for a repository, in order: the site root
and the `docs/` subpath. -/
def candidates (org repoName : String) : List String :=
  [defaultPageUrl org repoName ++ "oer-assignments.json",
   defaultPageUrl org repoName ++ "docs/oer-assignments.json"]

/-- A listing-API HTTP response: success flag, status code, the text of the
body (`none` when `r.text()` itself rejects — the script replaces that with
`""`), and the JSON parse result of the body. -/
structure HttpResp where
  ok : Bool
  status : Nat
  bodyText : Option String
  json : Except String JSVal

/-- The `gh(path)` helper: on success return the parsed JSON body (a parse
rejection propagates as a fatal error); on a non-success status throw an
error message carrying the HTTP status and the response body text. -/
def gh (resp : HttpResp) (path : String) : Except String JSVal :=
  if resp.ok then resp.json
  else
    .error ("GitHub API " ++ toString resp.status ++ " on " ++ path ++ ": "
      ++ resp.bodyText.getD "")

/-- The fixed page size of the listing request. -/
def per_page : Nat := 100

/-- The pagination loop of `listAllOrgRepos`.  `api` abstracts one `gh` call
per page (already decoded to a repository batch, or the fatal error `gh`
threw).  Arguments: remaining fuel, current page, accumulated repositories,
requests issued so far.  `none` means the `while (true)` loop has not
finished within the given fuel. -/
def listAllAux (api : Nat → Except String (List Repo)) :
    Nat → Nat → List Repo → Nat → Option (Except String (List Repo × Nat))
  | 0, _, _, _ => none
  | fuel + 1, page, acc, reqs =>
    match api page with
    | .error e => some (.error e)
    | .ok batch =>
      if batch.length < per_page then some (.ok (acc ++ batch, reqs + 1))
      else listAllAux api fuel (page + 1) (acc ++ batch) (reqs + 1)

/-- `listAllOrgRepos(org)`: start at page 1 with nothing accumulated. -/
def listAllOrgRepos (api : Nat → Except String (List Repo)) (fuel : Nat) :
    Option (Except String (List Repo × Nat)) :=
  listAllAux api fuel 1 [] 0

/-- `for (const it of v)`: arrays yield their elements, strings yield their
characters as one-character strings, anything else is not iterable and
throws. -/
def iterateJS : JSVal → Except String (List JSVal)
  | .arr xs => .ok xs
  | .str s => .ok (s.data.map (fun c => JSVal.str (String.mk [c])))
  | _ => .error "TypeError: value is not iterable"

/-- Normalize every raw item of a document in order; a `TypeError` thrown by
`normalizeItem` aborts the run (nothing catches it in the script). -/
def normalizeAll (org : String) (repo : Repo) :
    List JSVal → Except String (List CatalogItem)
  | [] => .ok []
  | it :: rest => do
    let c ← normalizeItem org it repo
    let cs ← normalizeAll org repo rest
    .ok (c :: cs)

/-- The per-repository body of the main loop: probe the candidate URLs and,
when a document with a truthy `items` length was found, push the normalized
items.  When no candidate qualified the repository contributes no items (the
`oer.yml` contents fallback is fetched but explicitly parses nothing and
swallows every error, so it is omitted from the model). -/
def collectRepoItems (org : String) (fetch : String → FetchOutcome)
    (repo : Repo) : Except String (List CatalogItem) :=
  match (probe fetch (candidates org repo.name)).1 with
  | some data => do
    let its ← iterateJS (getProp data "items")
    normalizeAll org repo its
  | none => .ok []

/-- The main loop over the filtered repositories, concatenating each
repository's contribution in order. -/
def collectAll (org : String) (fetch : String → FetchOutcome) :
    List Repo → Except String (List CatalogItem)
  | [] => .ok []
  | repo :: rest => do
    let here ← collectRepoItems org fetch repo
    let there ← collectAll org fetch rest
    .ok (here ++ there)

/-- The string a sort key is compared as.  In the script the receiver of
`localeCompare` is `a.course_code || ""` (resp. `a.title`); a truthy
non-string there would be a `TypeError` at sort time, which no theorem below
relies on — every statement about the sort concerns string (or null) keys,
where this extraction is exact. -/
def strOfJS : JSVal → String
  | .str s => s
  | _ => ""

/-- The primary sort key: `a.course_code || ""`. -/
def sortKeyCode (v : JSVal) : String := strOfJS (jsOr v (.str ""))

/-- The sort comparator
`(a.course_code || "").localeCompare(b.course_code || "") ||
 a.title.localeCompare(b.title)`:
the title comparison is consulted exactly when the course-code comparison
returned 0.  `localeCompare` is modelled as code-point lexicographic
comparison (it agrees with it on the ASCII course codes and titles at
issue). -/
def compareItems (a b : CatalogItem) : Ordering :=
  match compare (sortKeyCode a.course_code) (sortKeyCode b.course_code) with
  | .eq => compare (strOfJS a.title) (strOfJS b.title)
  | o => o

/-- The boolean ≤ induced by the comparator. -/
def itemLe (a b : CatalogItem) : Bool := compareItems a b != Ordering.gt

/-- `items.sort(comparator)`: `Array.prototype.sort` is required to be
stable, so it is modelled by a stable merge sort on the comparator's ≤. -/
def sortItems (l : List CatalogItem) : List CatalogItem := l.mergeSort itemLe

/-- The final catalog document (`generated_at`, a wall-clock timestamp, is
outside the model). -/
structure Catalog where
  org : String
  item_count : Nat
  items : List CatalogItem

/-- The environment configuration read at module load. -/
structure Env where
  token : String
  org : String
  allowlist : List String
  blocklist : List String

/-- The main run.  A `some (.ok cat)` is the catalog written to
`assets/assignments.json`; `some (.error e)` is an error reaching the
top-level catch, which logs and exits non-zero WITHOUT writing the output
file (the write statement comes after the whole repository loop); `none` is
a pagination loop that did not finish within the fuel. -/
def runMain (env : Env) (api : Nat → Except String (List Repo))
    (fetch : String → FetchOutcome) (fuel : Nat) :
    Option (Except String Catalog) :=
  if env.token == "" || env.org == "" then
    some (.error "Missing GH_TOKEN or ORG env vars.")
  else
    match listAllOrgRepos api fuel with
    | none => none
    | some (.error e) => some (.error e)
    | some (.ok (rs, _)) =>
      let repos := rs.filter (fun r => allowed env.allowlist env.blocklist r.name)
      match collectAll env.org fetch repos with
      | .error e => some (.error e)
      | .ok items =>
        let sorted := sortItems items
        some (.ok { org := env.org, item_count := sorted.length, items := sorted })

/-! ### Concrete fixtures used by the example theorems and witnesses -/

/-- The repository of the concrete normalization examples. -/
def demoRepo : Repo := { name := "demo", html_url := "https://github.com/acme/demo" }

/-- A raw item whose every defaulted scalar field is the empty string. -/
def demoEmptyStrings : JSVal :=
  .obj [("title", .str ""), ("license", .str ""), ("course_code", .str ""),
        ("summary", .str "")]

/-- The normalization of `demoEmptyStrings` under `demoRepo` and org
`"acme"`. -/
def demoEmptyStringsItem : CatalogItem :=
  { id := .str "demo-item", title := .str "demo", course_code := .str "",
    page_url := .str "https://acme.github.io/demo/", summary := .str "",
    topics := [], software := [], keywords := [], license := .str "CC-BY-4.0",
    learning_outcomes := [], blooms_verbs := [], blooms_levels := [],
    repo_name := "demo", repo_url := "https://github.com/acme/demo" }

/-- An aggregator input with the given course code and title (the remaining
fields are irrelevant to the sort). -/
def mkSortInput (code title : JSVal) : CatalogItem :=
  { id := .str "", title := title, course_code := code, page_url := .str "",
    summary := .jsnull, topics := [], software := [], keywords := [],
    license := .str "", learning_outcomes := [], blooms_verbs := [],
    blooms_levels := [], repo_name := "", repo_url := "" }

/-- The sorting scenario of the specification: course codes
`B101, null, A200, A100` paired with titles `x, y, z, w`. -/
def sortScenario : List CatalogItem :=
  [mkSortInput (.str "B101") (.str "x"), mkSortInput .jsnull (.str "y"),
   mkSortInput (.str "A200") (.str "z"), mkSortInput (.str "A100") (.str "w")]

/-- Two items with identical sort keys, distinguished by `summary`. -/
def stableA : CatalogItem := mkSortInput (.str "A") (.str "t")

/-- See `stableA`. -/
def stableB : CatalogItem :=
  { mkSortInput (.str "A") (.str "t") with summary := .str "second" }

/-- Repositories of the end-to-end example. -/
def lab1 : Repo := { name := "lab1", html_url := "https://github.com/acme/lab1" }

/-- See `lab1`. -/
def lab2 : Repo := { name := "lab2", html_url := "https://github.com/acme/lab2" }

/-- A metadata document with one raw item. -/
def introDoc : JSVal := .obj [("items", .arr [.obj [("title", .str "Intro")]])]

/-- The environment of the end-to-end example. -/
def envEx : Env := { token := "t", org := "acme", allowlist := [], blocklist := [] }

/-- The normalization of the raw item of `introDoc` under `lab1`. -/
def itemIntro : CatalogItem :=
  { id := .str "lab1-intro", title := .str "Intro", course_code := .jsnull,
    page_url := .str "https://acme.github.io/lab1/", summary := .jsnull,
    topics := [], software := [], keywords := [], license := .str "CC-BY-4.0",
    learning_outcomes := [], blooms_verbs := [], blooms_levels := [],
    repo_name := "lab1", repo_url := "https://github.com/acme/lab1" }

/-- The catalog produced by the end-to-end example. -/
def catEx : Catalog := { org := "acme", item_count := 1, items := [itemIntro] }

/-- The listing of the end-to-end example: one short page. -/
def apiEx : Nat → Except String (List Repo) := fun _ => .ok [lab1, lab2]

/-- The site fetch of the end-to-end example: only the first candidate of
`lab1` serves a document. -/
def fetchEx : String → FetchOutcome := fun u =>
  if u = "https://acme.github.io/lab1/oer-assignments.json" then
    .resp true (.ok introDoc)
  else .netError

/-- A fetch where only the second of two candidate URLs serves a document
with a non-empty `items` array. -/
def fetchSecondOnly : String → FetchOutcome := fun u =>
  if u = "c2" then .resp true (.ok introDoc) else .netError

/-- A listing where page 1 is exactly full and page 2 is empty. -/
def pagesEx : Nat → List Repo := fun p =>
  if p = 1 then List.replicate per_page lab1 else []

/-- A non-success listing response. -/
def respEx : HttpResp :=
  { ok := false, status := 500, bodyText := some "boom",
    json := .error "never consulted" }

/-! ### Helper lemmas -/

/-- Unfolding of the record produced by a successful `normalizeItem`: every
field except `id` is the corresponding defaulting expression, and the `id`
is either the truthy raw `id` or a string synthesized from the repository
name. -/
theorem normalizeItem_ok_fields (org : String) (it : JSVal) (repo : Repo)
    (c : CatalogItem) (h : normalizeItem org it repo = .ok c) :
    c.title = jsOr (getProp it "title") (.str repo.name) ∧
    c.course_code = jsCoalesce (getProp it "course_code") .jsnull ∧
    c.page_url = jsOr (getProp it "page_url")
      (jsOr (getProp it "site_url") (.str (defaultPageUrl org repo.name))) ∧
    c.summary = jsCoalesce (getProp it "summary") .jsnull ∧
    c.license = jsOr (getProp it "license") (.str "CC-BY-4.0") ∧
    c.topics = arrayOrEmpty (getProp it "topics") ∧
    c.repo_name = repo.name ∧ c.repo_url = repo.html_url ∧
    (jsTruthy (getProp it "id") = true → c.id = getProp it "id") ∧
    (jsTruthy (getProp it "id") = false →
      ∃ s, c.id = .str (repo.name ++ "-" ++ s)) := by
  unfold normalizeItem at h
  by_cases hid : jsTruthy (getProp it "id") = true
  · rw [if_pos hid] at h
    simp only [Except.bind, bind] at h
    cases h
    refine ⟨rfl, rfl, rfl, rfl, rfl, rfl, rfl, rfl, fun _ => rfl, fun hf => ?_⟩
    rw [hid] at hf; cases hf
  · rw [if_neg hid] at h
    cases hlow : jsToLowerCase (jsOr (getProp it "title") (.str "item")) with
    | error e => rw [hlow] at h; simp only [Except.bind, bind] at h; cases h
    | ok slug =>
      rw [hlow] at h
      simp only [Except.bind, bind] at h
      cases h
      exact ⟨rfl, rfl, rfl, rfl, rfl, rfl, rfl, rfl,
        fun ht => absurd ht hid, fun _ => ⟨collapseWs slug, rfl⟩⟩

/-- `jsToLowerCase` succeeds on the `id`-slug argument whenever the raw
title is a string or is falsy (in which case the literal `"item"` is
lowered). -/
theorem jsToLowerCase_jsOr_ok (v : JSVal)
    (h : (∃ s, v = .str s) ∨ jsTruthy v = false) :
    ∃ t, jsToLowerCase (jsOr v (.str "item")) = .ok t := by
  rcases h with ⟨s, rfl⟩ | hf
  · unfold jsOr
    by_cases h0 : jsTruthy (.str s) = true
    · rw [if_pos h0]; exact ⟨toLowerJS s, rfl⟩
    · rw [if_neg h0]; exact ⟨toLowerJS "item", rfl⟩
  · unfold jsOr; rw [if_neg (by rw [hf]; exact Bool.false_ne_true)]
    exact ⟨toLowerJS "item", rfl⟩

/-! ### Claim theorems -/

/-- C2: a repository name passes the filter iff the allow-list is empty or
contains it, and the block-list does not contain it; a name in both lists is
excluded (block wins), and an empty allow-list admits every name outside the
block-list. -/
theorem allowed_characterization (allowlist blocklist : List String)
    (name : String) :
    (allowed allowlist blocklist name = true ↔
      ((allowlist = [] ∨ name ∈ allowlist) ∧ name ∉ blocklist)) ∧
    (name ∈ allowlist → name ∈ blocklist →
      allowed allowlist blocklist name = false) ∧
    (allowlist = [] → name ∉ blocklist →
      allowed allowlist blocklist name = true) := by
  have main : allowed allowlist blocklist name = true ↔
      ((allowlist = [] ∨ name ∈ allowlist) ∧ name ∉ blocklist) := by
    unfold allowed
    by_cases hmem : name ∈ allowlist <;> by_cases hbl : name ∈ blocklist <;>
      by_cases hnil : allowlist = [] <;>
        simp [hmem, hbl, hnil, List.length_eq_zero]
  refine ⟨main, fun ha hb => ?_, fun hnil hb => main.2 ⟨Or.inl hnil, hb⟩⟩
  cases h : allowed allowlist blocklist name with
  | false => rfl
  | true => exact absurd hb (main.1 h).2

/-- C2 witness: a name in both lists is excluded. -/
theorem allowed_characterization_witness : allowed ["a"] ["a"] "a" = false :=
  (allowed_characterization ["a"] ["a"] "a").2.1 (by decide) (by decide)

/-- C9: the repository filter is idempotent — filtering an already-filtered
collection (of names, or of repositories filtered by name as in the script)
with the same allow/block lists yields the same collection. -/
theorem filter_idempotent (al bl : List String) (names : List String)
    (repos : List Repo) :
    (names.filter (allowed al bl)).filter (allowed al bl)
        = names.filter (allowed al bl) ∧
    (repos.filter (fun r => allowed al bl r.name)).filter
        (fun r => allowed al bl r.name)
      = repos.filter (fun r => allowed al bl r.name) := by
  constructor <;> (rw [List.filter_filter]; simp [Bool.and_self])

/-- C3 counterexample: the normalizer is not total on JSON objects — a raw
item whose `id` is absent and whose `title` is the (truthy, non-string) JSON
number `5` makes `(it.title || "item").toLowerCase()` throw a `TypeError`. -/
theorem normalizeItem_not_total :
    normalizeItem "acme" (.obj [("title", .num 5)]) demoRepo =
      .error "TypeError: toLowerCase is not a function" := rfl

/-- C3 (amended): the normalizer returns a complete `CatalogItem` for every
JSON object whose raw `title` is a string or falsy whenever its raw `id` is
falsy (only a truthy non-string title under a falsy id throws); in
particular the empty object under repository `demo` and org `acme` yields
exactly the defaults claimed. -/
theorem normalizeItem_total_on_tame_inputs :
    (normalizeItem "acme" (.obj []) demoRepo = .ok
      { id := .str "demo-item", title := .str "demo", course_code := .jsnull,
        page_url := .str "https://acme.github.io/demo/", summary := .jsnull,
        topics := [], software := [], keywords := [],
        license := .str "CC-BY-4.0", learning_outcomes := [],
        blooms_verbs := [], blooms_levels := [], repo_name := "demo",
        repo_url := "https://github.com/acme/demo" }) ∧
    (∀ (org : String) (it : JSVal) (repo : Repo),
      jsTruthy (getProp it "id") = true ∨ (∃ s, getProp it "title" = .str s) ∨
        jsTruthy (getProp it "title") = false →
      ∃ c, normalizeItem org it repo = .ok c) := by
  refine ⟨rfl, fun org it repo h => ?_⟩
  unfold normalizeItem
  by_cases hid : jsTruthy (getProp it "id") = true
  · rw [if_pos hid]; exact ⟨_, rfl⟩
  · rw [if_neg hid]
    have hlow : ∃ t, jsToLowerCase (jsOr (getProp it "title") (.str "item")) = .ok t := by
      apply jsToLowerCase_jsOr_ok
      rcases h with h | h | h
      · exact absurd h hid
      · exact Or.inl h
      · exact Or.inr h
    obtain ⟨t, ht⟩ := hlow
    rw [ht]
    exact ⟨_, rfl⟩

/-- C3 witness: the totality branch applied to an object with a falsy
title. -/
theorem normalizeItem_total_on_tame_inputs_witness :
    (normalizeItem "acme" (.obj [("course_code", .str "X")]) demoRepo).isOk
      = true := by
  obtain ⟨c, hc⟩ := normalizeItem_total_on_tame_inputs.2 "acme"
    (.obj [("course_code", .str "X")]) demoRepo (Or.inr (Or.inr rfl))
  rw [hc]; rfl

/-- C7: when the raw item has no `id`, the synthesized id is the repository
name, a hyphen, and the lowercased title with whitespace runs collapsed to
single hyphens; when the title is also absent the literal word `"item"` is
slugified in its place, giving `repoName ++ "-item"`. -/
theorem normalizeItem_id_synthesis (org : String) (it : JSVal) (repo : Repo) :
    (∀ t, getProp it "id" = .undefined → getProp it "title" = .str t → t ≠ "" →
      ∃ c, normalizeItem org it repo = .ok c ∧
        c.id = .str (repo.name ++ "-" ++ collapseWs (toLowerJS t))) ∧
    (getProp it "id" = .undefined → getProp it "title" = .undefined →
      ∃ c, normalizeItem org it repo = .ok c ∧
        c.id = .str (repo.name ++ "-item")) := by
  constructor
  · intro t hid ht hne
    unfold normalizeItem
    rw [if_neg (by rw [hid]; exact Bool.false_ne_true)]
    have hor : jsOr (getProp it "title") (.str "item") = .str t := by
      rw [ht]; unfold jsOr
      rw [if_pos (by simp [jsTruthy, hne])]
    rw [hor]
    exact ⟨_, rfl, rfl⟩
  · intro hid ht
    unfold normalizeItem
    rw [if_neg (by rw [hid]; exact Bool.false_ne_true)]
    have hor : jsOr (getProp it "title") (.str "item") = .str "item" := by
      rw [ht]; rfl
    rw [hor]
    refine ⟨_, rfl, ?_⟩
    show JSVal.str (repo.name ++ "-" ++ collapseWs (toLowerJS "item"))
      = JSVal.str (repo.name ++ "-item")
    rw [show collapseWs (toLowerJS "item") = "item" from rfl,
      String.append_assoc]
    rfl

/-- C7 witness: the slug of the title `"Intro Lab"` and the absent-title
fallback, at concrete inputs. -/
theorem normalizeItem_id_synthesis_witness :
    (normalizeItem "acme" (.obj [("title", .str "Intro Lab")]) demoRepo).isOk
        = true ∧
    (normalizeItem "acme" (.obj []) demoRepo).isOk = true := by
  constructor
  · obtain ⟨c, hc, -⟩ :=
      (normalizeItem_id_synthesis "acme" (.obj [("title", .str "Intro Lab")])
        demoRepo).1 "Intro Lab" rfl rfl (by decide)
    rw [hc]; rfl
  · obtain ⟨c, hc, -⟩ :=
      (normalizeItem_id_synthesis "acme" (.obj []) demoRepo).2 rfl rfl
    rw [hc]; rfl

/-- C10: the normalizer defaults `id`, `title`, `page_url`/`site_url` and
`license` on any falsy raw value (so a raw `""` title yields the repository
name and a raw `""` license yields the default license), while `course_code`
and `summary` are defaulted only on null/undefined — a raw `""` there is
preserved unchanged. -/
theorem normalize_falsy_nullish (org : String) (it : JSVal) (repo : Repo)
    (c : CatalogItem) (h : normalizeItem org it repo = .ok c) :
    (jsTruthy (getProp it "title") = false → c.title = .str repo.name) ∧
    (jsTruthy (getProp it "title") = true → c.title = getProp it "title") ∧
    (jsTruthy (getProp it "license") = false →
      c.license = .str "CC-BY-4.0") ∧
    (jsTruthy (getProp it "license") = true →
      c.license = getProp it "license") ∧
    (jsTruthy (getProp it "page_url") = false →
      jsTruthy (getProp it "site_url") = false →
      c.page_url = .str (defaultPageUrl org repo.name)) ∧
    (jsTruthy (getProp it "id") = false →
      ∃ s, c.id = .str (repo.name ++ "-" ++ s)) ∧
    (jsNullish (getProp it "course_code") = false →
      c.course_code = getProp it "course_code") ∧
    (jsNullish (getProp it "course_code") = true → c.course_code = .jsnull) ∧
    (jsNullish (getProp it "summary") = false →
      c.summary = getProp it "summary") ∧
    (jsNullish (getProp it "summary") = true → c.summary = .jsnull) := by
  obtain ⟨htitle, hcode, hpage, hsummary, hlicense, -, -, -, -, hidf⟩ :=
    normalizeItem_ok_fields org it repo c h
  refine ⟨fun hf => ?_, fun ht => ?_, fun hf => ?_, fun ht => ?_,
    fun hf hf2 => ?_, hidf, fun hn => ?_, fun hn => ?_, fun hn => ?_,
    fun hn => ?_⟩
  · rw [htitle]; unfold jsOr; rw [if_neg (by rw [hf]; exact Bool.false_ne_true)]
  · rw [htitle]; unfold jsOr; rw [if_pos ht]
  · rw [hlicense]; unfold jsOr
    rw [if_neg (by rw [hf]; exact Bool.false_ne_true)]
  · rw [hlicense]; unfold jsOr; rw [if_pos ht]
  · rw [hpage]; unfold jsOr
    rw [if_neg (by rw [hf]; exact Bool.false_ne_true),
      if_neg (by rw [hf2]; exact Bool.false_ne_true)]
  · rw [hcode]; unfold jsCoalesce
    rw [if_neg (by rw [hn]; exact Bool.false_ne_true)]
  · rw [hcode]; unfold jsCoalesce; rw [if_pos hn]
  · rw [hsummary]; unfold jsCoalesce
    rw [if_neg (by rw [hn]; exact Bool.false_ne_true)]
  · rw [hsummary]; unfold jsCoalesce; rw [if_pos hn]

/-- C10 witness: empty-string title and license are defaulted, empty-string
course code and summary are preserved. -/
theorem normalize_falsy_nullish_witness :
    demoEmptyStringsItem.title = .str "demo" ∧
    demoEmptyStringsItem.license = .str "CC-BY-4.0" ∧
    demoEmptyStringsItem.course_code = .str "" ∧
    demoEmptyStringsItem.summary = .str "" := by
  have h := normalize_falsy_nullish "acme" demoEmptyStrings demoRepo
    demoEmptyStringsItem (by rfl)
  exact ⟨h.1 (by rfl), h.2.2.1 (by rfl),
    (h.2.2.2.2.2.2.1 (by rfl)).trans (by rfl),
    (h.2.2.2.2.2.2.2.2.1 (by rfl)).trans (by rfl)⟩

/-- When no candidate passes the `items`-length check, the probe walks the
whole list and yields no document. -/
theorem probe_all_fail (fetch : String → FetchOutcome) :
    ∀ cs : List String,
      (∀ c ∈ cs, hasItems (fetchIfExists (fetch c)) = false) →
      probe fetch cs = (none, cs.length) := by
  intro cs
  induction cs with
  | nil => intro _; rfl
  | cons u rest ih =>
    intro h
    have hu := h u (List.mem_cons_self u rest)
    have hrest : ∀ c ∈ rest, hasItems (fetchIfExists (fetch c)) = false :=
      fun c hc => h c (List.mem_cons_of_mem u hc)
    simp only [probe, hu, Bool.false_eq_true, if_false, ih hrest,
      List.length_cons]

/-- The probe returns the first qualifying candidate's document and fetches
nothing past it: the count of attempted candidates is the index of the first
success plus one, whatever follows. -/
theorem probe_first (fetch : String → FetchOutcome) :
    ∀ (pre : List String) (u : String) (post : List String),
      (∀ c ∈ pre, hasItems (fetchIfExists (fetch c)) = false) →
      hasItems (fetchIfExists (fetch u)) = true →
      probe fetch (pre ++ u :: post)
        = (fetchIfExists (fetch u), pre.length + 1) := by
  intro pre
  induction pre with
  | nil =>
    intro u post _ hu
    simp only [List.nil_append, probe, hu, if_true, List.length_nil]
  | cons a pre ih =>
    intro u post h hu
    have ha := h a (List.mem_cons_self a pre)
    have hik := ih u post (fun c hc => h c (List.mem_cons_of_mem a hc)) hu
    simp only [List.cons_append, probe, ha, Bool.false_eq_true, if_false,
      List.length_cons, List.append_eq]
    rw [hik]

/-- C5: the per-repository probe never throws — a network error, non-success
status or unparseable body yields no data for that candidate — and the
candidate loop returns the document of the first candidate with a truthy
`items` length, attempting no candidate after it; when no candidate
qualifies the repository contributes zero items from this path. -/
theorem probe_first_success :
    (∀ (b : Except String JSVal) (e : String) (v : JSVal),
      fetchIfExists .netError = none ∧
      fetchIfExists (.resp false b) = none ∧
      fetchIfExists (.resp true (.error e)) = none ∧
      fetchIfExists (.resp true (.ok v)) = some v) ∧
    (∀ (fetch : String → FetchOutcome) (pre : List String) (u : String)
        (post : List String),
      (∀ c ∈ pre, hasItems (fetchIfExists (fetch c)) = false) →
      hasItems (fetchIfExists (fetch u)) = true →
      probe fetch (pre ++ u :: post)
        = (fetchIfExists (fetch u), pre.length + 1)) ∧
    (∀ (fetch : String → FetchOutcome) (cs : List String),
      (∀ c ∈ cs, hasItems (fetchIfExists (fetch c)) = false) →
      probe fetch cs = (none, cs.length)) ∧
    (∀ (org : String) (fetch : String → FetchOutcome) (repo : Repo),
      (∀ c ∈ candidates org repo.name,
        hasItems (fetchIfExists (fetch c)) = false) →
      collectRepoItems org fetch repo = .ok []) := by
  refine ⟨fun b e v => ⟨rfl, rfl, rfl, rfl⟩, probe_first, probe_all_fail,
    fun org fetch repo h => ?_⟩
  unfold collectRepoItems
  rw [probe_all_fail fetch _ h]

/-- C5 witness: of two candidates where only the second serves a document
with a non-empty `items` array, the probe returns the second document after
exactly two attempts. -/
theorem probe_first_success_witness :
    probe fetchSecondOnly ["c1", "c2"] = (some introDoc, 2) := by
  have h := probe_first_success.2.1 fetchSecondOnly ["c1"] "c2" []
    (by intro c hc; simp only [List.mem_singleton] at hc; rw [hc]; rfl)
    (by rfl)
  exact h

/-- A full page keeps the pagination loop going; the loop stops as soon as
some page is short, so fuel covering the first short page suffices. -/
theorem listAllAux_short_terminates (pages : Nat → List Repo) (p : Nat)
    (hshort : (pages p).length < per_page) :
    ∀ (fuel page : Nat) (acc : List Repo) (reqs : Nat),
      page ≤ p → p < page + fuel →
      (listAllAux (fun q => .ok (pages q)) fuel page acc reqs).isSome
        = true := by
  intro fuel
  induction fuel with
  | zero => intro page acc reqs h1 h2; omega
  | succ f ih =>
    intro page acc reqs h1 h2
    show (if (pages page).length < per_page
        then some (Except.ok (acc ++ pages page, reqs + 1))
        else listAllAux (fun q => Except.ok (pages q)) f (page + 1)
          (acc ++ pages page) (reqs + 1)).isSome = true
    by_cases hp : (pages page).length < per_page
    · rw [if_pos hp]; rfl
    · rw [if_neg hp]
      have hne : page ≠ p := fun e => hp (e ▸ hshort)
      exact ih (page + 1) _ _ (by omega) (by omega)

/-- An error from the listing API on the page after `j` full pages
propagates out of the pagination loop unchanged. -/
theorem listAllAux_error (api : Nat → Except String (List Repo))
    (e : String) :
    ∀ (j fuel page : Nat) (acc : List Repo) (reqs : Nat),
      (∀ q, page ≤ q → q < page + j →
        ∃ batch, api q = .ok batch ∧ batch.length = per_page) →
      api (page + j) = .error e → j < fuel →
      listAllAux api fuel page acc reqs = some (.error e) := by
  intro j
  induction j with
  | zero =>
    intro fuel page acc reqs hfull herr hlt
    obtain ⟨f, rfl⟩ : ∃ f, fuel = f + 1 := ⟨fuel - 1, by omega⟩
    unfold listAllAux
    rw [show page + 0 = page from rfl] at herr
    rw [herr]
  | succ j ih =>
    intro fuel page acc reqs hfull herr hlt
    obtain ⟨f, rfl⟩ : ∃ f, fuel = f + 1 := ⟨fuel - 1, by omega⟩
    obtain ⟨batch, hb, hlen⟩ := hfull page (Nat.le_refl page) (by omega)
    unfold listAllAux
    rw [hb]
    show (if batch.length < per_page
        then some (Except.ok (acc ++ batch, reqs + 1))
        else listAllAux api f (page + 1) (acc ++ batch) (reqs + 1))
      = some (Except.error e)
    rw [if_neg (by rw [hlen]; exact Nat.lt_irrefl _)]
    exact ih f (page + 1) _ _
      (fun q hq1 hq2 => hfull q (by omega) (by omega))
      (by rw [show page + 1 + j = page + (j + 1) from by omega]; exact herr)
      (by omega)

/-- C4: the lister pages from page 1 with fixed size 100, stopping at the
first short page and concatenating the pages in order: with page 1 exactly
full and page 2 short it issues exactly two requests and returns page 1
followed by page 2, and it terminates (for sufficient fuel) whenever some
page is short. -/
theorem pagination (pages : Nat → List Repo) :
    ((pages 1).length = per_page → (pages 2).length < per_page →
      ∀ fuel, 2 ≤ fuel →
        listAllOrgRepos (fun p => .ok (pages p)) fuel =
          some (.ok (pages 1 ++ pages 2, 2))) ∧
    (∀ p, 1 ≤ p → (pages p).length < per_page →
      ∀ fuel, p ≤ fuel →
        (listAllOrgRepos (fun p => .ok (pages p)) fuel).isSome = true) := by
  constructor
  · intro h1 h2 fuel hf
    obtain ⟨k, rfl⟩ : ∃ k, fuel = k + 1 + 1 := ⟨fuel - 2, by omega⟩
    show (if (pages 1).length < per_page
        then some (Except.ok (pages 1, 1))
        else listAllAux (fun p => Except.ok (pages p)) (k + 1) 2 (pages 1) 1)
      = some (Except.ok (pages 1 ++ pages 2, 2))
    rw [if_neg (by rw [h1]; exact Nat.lt_irrefl _)]
    show (if (pages 2).length < per_page
        then some (Except.ok (pages 1 ++ pages 2, 2))
        else listAllAux (fun p => Except.ok (pages p)) k 3
          (pages 1 ++ pages 2) 2)
      = some (Except.ok (pages 1 ++ pages 2, 2))
    rw [if_pos h2]
  · intro p hp hshort fuel hf
    exact listAllAux_short_terminates pages p hshort fuel 1 [] 0 hp (by omega)

/-- C4 witness: the two-page mock (page 1 exactly full, page 2 empty). -/
theorem pagination_witness :
    listAllOrgRepos (fun p => .ok (pagesEx p)) 2 =
      some (.ok (pagesEx 1 ++ pagesEx 2, 2)) :=
  (pagination pagesEx).1 (by decide) (by decide) 2 (by decide)

/-- C6: a non-success listing response makes `gh` throw an error carrying
the HTTP status and the response body text, and such a failure at any page
(after any number of full pages) makes the whole run abort with that error —
no catalog value is produced, so the output file is not written (the model
returns a catalog only on the `.ok` branch reached after the full
repository loop). -/
theorem fatal_listing_abort :
    (∀ (resp : HttpResp) (path : String), resp.ok = false →
      gh resp path = .error ("GitHub API " ++ toString resp.status ++ " on "
        ++ path ++ ": " ++ resp.bodyText.getD "")) ∧
    (∀ (env : Env) (api : Nat → Except String (List Repo))
        (fetch : String → FetchOutcome) (fuel k : Nat) (e : String),
      ¬ env.token = "" → ¬ env.org = "" →
      (∀ p, 1 ≤ p → p ≤ k →
        ∃ batch, api p = .ok batch ∧ batch.length = per_page) →
      api (k + 1) = .error e → k + 1 ≤ fuel →
      runMain env api fetch fuel = some (.error e)) := by
  constructor
  · intro resp path hok
    unfold gh
    rw [if_neg (by rw [hok]; exact Bool.false_ne_true)]
  · intro env api fetch fuel k e htok horg hfull herr hfuel
    have hlist : listAllOrgRepos api fuel = some (.error e) := by
      unfold listAllOrgRepos
      exact listAllAux_error api e k fuel 1 [] 0
        (fun q h1 h2 => hfull q h1 (by omega))
        (by rw [show 1 + k = k + 1 from by omega]; exact herr) (by omega)
    unfold runMain
    rw [if_neg (by simp [htok, horg]), hlist]

/-- C6 witness: a 500 response's error message, and a run aborted by a
failing first listing page. -/
theorem fatal_listing_abort_witness :
    gh respEx "/orgs/acme/repos" =
      .error "GitHub API 500 on /orgs/acme/repos: boom" ∧
    runMain envEx (fun _ => .error "listing failed") fetchEx 1 =
      some (.error "listing failed") := by
  constructor
  · rw [fatal_listing_abort.1 respEx "/orgs/acme/repos" rfl]; rfl
  · exact fatal_listing_abort.2 envEx _ fetchEx 1 0 "listing failed"
      (by decide) (by decide)
      (fun p h1 h2 => absurd (Nat.le_trans h1 h2) (by decide))
      rfl (by decide)

/-- The source comparator is the lexicographic composition of the
course-code key comparison with the title comparison. -/
theorem compareItems_eq_lex :
    compareItems = compareLex
      (compareOn fun i : CatalogItem => sortKeyCode i.course_code)
      (compareOn fun i : CatalogItem => strOfJS i.title) := by
  funext a b
  cases hc : compare (sortKeyCode a.course_code) (sortKeyCode b.course_code) <;>
    simp [compareItems, compareLex, compareOn, hc, Ordering.then]

/-- The comparator is transitive and symmetric in the `TransCmp` sense. -/
theorem transCmp_compareItems : Batteries.TransCmp compareItems := by
  rw [compareItems_eq_lex]
  infer_instance

/-- The boolean ≤ holds exactly when the comparator does not say `gt`. -/
theorem itemLe_ne_gt (a b : CatalogItem) :
    itemLe a b = true ↔ compareItems a b ≠ Ordering.gt := by
  unfold itemLe
  cases compareItems a b <;> decide

/-- Transitivity of the induced boolean ≤. -/
theorem itemLe_trans :
    ∀ a b c, itemLe a b = true → itemLe b c = true → itemLe a c = true := by
  intro a b c hab hbc
  have ht := transCmp_compareItems
  rw [itemLe_ne_gt] at hab hbc ⊢
  exact ht.le_trans hab hbc

/-- Totality of the induced boolean ≤. -/
theorem itemLe_total : ∀ a b, (itemLe a b || itemLe b a) = true := by
  intro a b
  haveI := transCmp_compareItems
  unfold itemLe
  cases hc : compareItems a b with
  | lt => rfl
  | eq => rfl
  | gt =>
    have hlt : compareItems b a = .lt := Batteries.OrientedCmp.cmp_eq_gt.1 hc
    rw [hlt]
    rfl

/-- The boolean ≤ spelled out as primary key then secondary key. -/
theorem itemLe_iff (a b : CatalogItem) :
    itemLe a b = true ↔
      (compare (sortKeyCode a.course_code) (sortKeyCode b.course_code)
          = .lt ∨
        (sortKeyCode a.course_code = sortKeyCode b.course_code ∧
          compare (strOfJS a.title) (strOfJS b.title) ≠ .gt)) := by
  rw [itemLe_ne_gt]
  unfold compareItems
  cases hc : compare (sortKeyCode a.course_code) (sortKeyCode b.course_code) with
  | lt => simp
  | eq =>
    have heq : sortKeyCode a.course_code = sortKeyCode b.course_code :=
      Batteries.BEqCmp.cmp_iff_eq.1 hc
    simp [heq]
  | gt =>
    have hne : ¬ sortKeyCode a.course_code = sortKeyCode b.course_code := by
      intro he
      rw [he] at hc
      have hrefl : compare (sortKeyCode b.course_code)
          (sortKeyCode b.course_code) = Ordering.eq :=
        Batteries.OrientedCmp.cmp_refl
      rw [hrefl] at hc
      cases hc
    simp [hne]

unseal List.merge List.mergeSort in
/-- C1 counterexample: on course codes `B101, null, A200, A100` with titles
`x, y, z, w` the sorted course codes are `null, A100, A200, B101` — the
null-coded item comes FIRST (the empty string precedes every non-empty
string), not last as claimed. -/
theorem sort_scenario_not_claimed_order :
    (sortItems sortScenario).map (fun c => c.course_code) =
        [JSVal.jsnull, .str "A100", .str "A200", .str "B101"] ∧
    ¬ (sortItems sortScenario).map (fun c => c.course_code) =
        [JSVal.str "A100", .str "A200", .str "B101", .jsnull] := by
  have h : (sortItems sortScenario).map (fun c => c.course_code) =
      [JSVal.jsnull, .str "A100", .str "A200", .str "B101"] := rfl
  refine ⟨h, fun hcontra => ?_⟩
  rw [h] at hcontra
  simp at hcontra

unseal List.merge List.mergeSort in
/-- C1 (amended): the aggregator sorts by primary key course code (null as
empty string, which sorts BEFORE every non-empty code) and secondary key
title, stably: on the scenario the output is the null-coded item first,
then A100, A200, B101; in general the output is a permutation, pairwise
ordered by the comparator (spelled out as primary-then-secondary key), and
items in order under the comparator keep their relative order (stability). -/
theorem sort_order_and_stability (l : List CatalogItem)
    (a b : CatalogItem) :
    sortItems sortScenario =
      [mkSortInput .jsnull (.str "y"), mkSortInput (.str "A100") (.str "w"),
       mkSortInput (.str "A200") (.str "z"),
       mkSortInput (.str "B101") (.str "x")] ∧
    (sortItems l).Perm l ∧
    List.Pairwise (fun x y => itemLe x y = true) (sortItems l) ∧
    (itemLe a b = true → [a, b].Sublist l → [a, b].Sublist (sortItems l)) ∧
    (itemLe a b = true ↔
      (compare (sortKeyCode a.course_code) (sortKeyCode b.course_code)
          = .lt ∨
        (sortKeyCode a.course_code = sortKeyCode b.course_code ∧
          compare (strOfJS a.title) (strOfJS b.title) ≠ .gt))) :=
  ⟨rfl, List.mergeSort_perm l itemLe,
    List.sorted_mergeSort itemLe_trans itemLe_total l,
    fun hle hsub =>
      List.pair_sublist_mergeSort itemLe_trans itemLe_total hle hsub,
    itemLe_iff a b⟩

unseal List.merge List.mergeSort in
/-- C1 witness: the concrete scenario order and a concrete stable pair. -/
theorem sort_order_and_stability_witness :
    sortItems sortScenario =
      [mkSortInput .jsnull (.str "y"), mkSortInput (.str "A100") (.str "w"),
       mkSortInput (.str "A200") (.str "z"),
       mkSortInput (.str "B101") (.str "x")] ∧
    [stableA, stableB].Sublist (sortItems [stableA, stableB]) :=
  ⟨(sort_order_and_stability [] stableA stableB).1,
    (sort_order_and_stability [stableA, stableB] stableA stableB).2.2.2.1
      (by rfl) (List.Sublist.refl _)⟩

/-- Every normalized item of a document comes from some raw item of that
document. -/
theorem normalizeAll_mem (org : String) (repo : Repo) :
    ∀ (its : List JSVal) (cs : List CatalogItem),
      normalizeAll org repo its = .ok cs →
      ∀ c ∈ cs, ∃ it ∈ its, normalizeItem org it repo = .ok c := by
  intro its
  induction its with
  | nil =>
    intro cs h c hc
    cases h
    cases hc
  | cons it rest ih =>
    intro cs h c hc
    unfold normalizeAll at h
    cases hn : normalizeItem org it repo with
    | error e => rw [hn] at h; simp only [bind, Except.bind] at h; cases h
    | ok c0 =>
      rw [hn] at h
      cases hr : normalizeAll org repo rest with
      | error e => rw [hr] at h; simp only [bind, Except.bind] at h; cases h
      | ok cs0 =>
        rw [hr] at h
        simp only [bind, Except.bind] at h
        cases h
        rcases List.mem_cons.1 hc with rfl | hmem
        · exact ⟨it, List.mem_cons_self it rest, hn⟩
        · obtain ⟨it2, hits, hn2⟩ := ih cs0 hr c hmem
          exact ⟨it2, List.mem_cons_of_mem it hits, hn2⟩

/-- Every item a repository contributes is the normalization (under that
very repository) of some raw item. -/
theorem collectRepoItems_mem (org : String) (fetch : String → FetchOutcome)
    (repo : Repo) (cs : List CatalogItem)
    (h : collectRepoItems org fetch repo = .ok cs) :
    ∀ c ∈ cs, ∃ it, normalizeItem org it repo = .ok c := by
  unfold collectRepoItems at h
  cases hp : (probe fetch (candidates org repo.name)).1 with
  | none =>
    rw [hp] at h
    cases h
    intro c hc
    cases hc
  | some data =>
    rw [hp] at h
    have h2 : (do
        let its ← iterateJS (getProp data "items")
        normalizeAll org repo its) = Except.ok cs := h
    cases hi : iterateJS (getProp data "items") with
    | error e => rw [hi] at h2; simp only [bind, Except.bind] at h2; cases h2
    | ok its =>
      rw [hi] at h2
      simp only [bind, Except.bind] at h2
      intro c hc
      obtain ⟨it, -, hn⟩ := normalizeAll_mem org repo its cs h2 c hc
      exact ⟨it, hn⟩

/-- Every collected item is the normalization of a raw item of one of the
traversed repositories. -/
theorem collectAll_mem (org : String) (fetch : String → FetchOutcome) :
    ∀ (repos : List Repo) (cs : List CatalogItem),
      collectAll org fetch repos = .ok cs →
      ∀ c ∈ cs, ∃ repo ∈ repos, ∃ it, normalizeItem org it repo = .ok c := by
  intro repos
  induction repos with
  | nil =>
    intro cs h c hc
    cases h
    cases hc
  | cons r rest ih =>
    intro cs h c hc
    unfold collectAll at h
    cases h1 : collectRepoItems org fetch r with
    | error e => rw [h1] at h; simp only [bind, Except.bind] at h; cases h
    | ok here =>
      rw [h1] at h
      cases h2 : collectAll org fetch rest with
      | error e => rw [h2] at h; simp only [bind, Except.bind] at h; cases h
      | ok there =>
        rw [h2] at h
        simp only [bind, Except.bind] at h
        cases h
        rcases List.mem_append.1 hc with hm | hm
        · obtain ⟨it, hn⟩ := collectRepoItems_mem org fetch r here h1 c hm
          exact ⟨r, List.mem_cons_self r rest, it, hn⟩
        · obtain ⟨repo, hr, it, hn⟩ := ih there h2 c hm
          exact ⟨repo, List.mem_cons_of_mem r hr, it, hn⟩

/-- Inversion of a successful run: the catalog is the sorted collection
gathered from the filtered listing. -/
theorem runMain_ok_inv (env : Env) (api : Nat → Except String (List Repo))
    (fetch : String → FetchOutcome) (fuel : Nat) (cat : Catalog)
    (h : runMain env api fetch fuel = some (.ok cat)) :
    ∃ rs n items, listAllOrgRepos api fuel = some (.ok (rs, n)) ∧
      collectAll env.org fetch
        (rs.filter (fun r => allowed env.allowlist env.blocklist r.name))
        = .ok items ∧
      cat = { org := env.org, item_count := (sortItems items).length,
              items := sortItems items } := by
  unfold runMain at h
  split at h
  · exact absurd h (by simp)
  · split at h
    · exact absurd h (by simp)
    · exact absurd h (by simp)
    · rename_i rs n heq
      have h2 : (match collectAll env.org fetch
            (rs.filter (fun r => allowed env.allowlist env.blocklist r.name))
          with
          | Except.error e => some (Except.error e)
          | Except.ok items =>
            some (Except.ok (Catalog.mk env.org (sortItems items).length
              (sortItems items)))
          : Option (Except String Catalog)) = some (.ok cat) := h
      split at h2
      · exact absurd h2 (by simp)
      · rename_i items hcoll
        simp only [Option.some.injEq, Except.ok.injEq] at h2
        exact ⟨rs, n, items, heq, hcoll, h2.symm⟩

/-- C8: every catalog item carries `repo_name` and `repo_url` equal to the
name and `html_url` of exactly the repository its raw item was discovered
under — locally for each normalization, and across a whole successful run
for every item of the output catalog. -/
theorem repo_context_correspondence :
    (∀ (org : String) (it : JSVal) (repo : Repo) (c : CatalogItem),
      normalizeItem org it repo = .ok c →
        c.repo_name = repo.name ∧ c.repo_url = repo.html_url) ∧
    (∀ (env : Env) (api : Nat → Except String (List Repo))
        (fetch : String → FetchOutcome) (fuel : Nat) (cat : Catalog),
      runMain env api fetch fuel = some (.ok cat) →
      ∀ c ∈ cat.items, ∃ repo it, normalizeItem env.org it repo = .ok c ∧
        c.repo_name = repo.name ∧ c.repo_url = repo.html_url ∧
        ∃ rs n, listAllOrgRepos api fuel = some (.ok (rs, n)) ∧
          repo ∈ rs.filter
            (fun r => allowed env.allowlist env.blocklist r.name)) := by
  constructor
  · intro org it repo c h
    obtain ⟨-, -, -, -, -, -, hname, hurl, -, -⟩ :=
      normalizeItem_ok_fields org it repo c h
    exact ⟨hname, hurl⟩
  · intro env api fetch fuel cat hrun c hc
    obtain ⟨rs, n, items, hlist, hcoll, hcat⟩ :=
      runMain_ok_inv env api fetch fuel cat hrun
    have hmem : c ∈ items := by
      rw [hcat] at hc
      exact (List.mergeSort_perm items itemLe).mem_iff.1 hc
    obtain ⟨repo, hrmem, it, hn⟩ :=
      collectAll_mem env.org fetch _ items hcoll c hmem
    obtain ⟨-, -, -, -, -, -, hname, hurl, -, -⟩ :=
      normalizeItem_ok_fields env.org it repo c hn
    exact ⟨repo, it, hn, hname, hurl, rs, n, hlist, hrmem⟩

unseal List.merge List.mergeSort in
/-- C8 witness: the end-to-end run (one short listing page, one document on
`lab1`) and the local correspondence at its single item. -/
theorem repo_context_correspondence_witness :
    (itemIntro.repo_name = lab1.name ∧ itemIntro.repo_url = lab1.html_url) ∧
    (listAllOrgRepos apiEx 1).isSome = true := by
  constructor
  · exact repo_context_correspondence.1 "acme"
      (.obj [("title", .str "Intro")]) lab1 itemIntro rfl
  · obtain ⟨repo, it, hn, hname, hurl, rs, n, hlist, hmem⟩ :=
      repo_context_correspondence.2 envEx apiEx fetchEx 1 catEx rfl itemIntro
        (List.mem_singleton_self itemIntro)
    rw [hlist]
    rfl

end BuildCatalog
